import Mathlib

/-!
Shallow embedding of the rendering/caching core of anyoverlay
(src/anyoverlay.py): the CachedImageRenderer LRU cache, the tile-position
memoization of TiledImageWidget and TiledGIFWidget, the TiledGIFWidget
frame timer, and the OverlayWindow state handlers (setImage,
setScalingMode, set_edit_mode, mouse events, increase_scale and
decrease_scale), together with theorems about cache eviction, memoized
tiling, scale adjustment, degenerate-scale clamping and error handling.

Counters such as decode_count, compute_count, repaint_count and
init_image_count instrument how often the corresponding side-effecting
branch of the Python code runs; they change nothing else about the
translated control flow.
-/

/-! ## Numeric helpers -/

/-- Python int() applied to a rational value: truncation toward zero
(the source applies int(...) to float products such as
target_size.width() * scale_factor). Since a Rat is normalized with a
positive denominator, T-division of the numerator by the denominator is
exactly truncation toward zero. -/
def pyInt (q : ℚ) : ℤ := Int.tdiv q.num (q.den : ℤ)

/-- Python range(0, stop, step) for a positive step, as used by the
nested tiling loops: the values 0, step, 2*step, ... strictly below stop.
Python raises ValueError on step = 0; the tiling code only reaches the
loops with positive tile dimensions. -/
def pyRange0 (stop step : ℕ) : List ℕ :=
  (List.range ((stop + step - 1) / step)).map (fun i => i * step)

/-! ## Tile positions (TiledImageWidget / TiledGIFWidget) -/

/-- Tile origins produced by calculate_tile_positions: the outer loop
walks x by the tile width across the widget width, the inner loop walks y
by the tile height across the widget height. -/
def tilePositions (w h tw th : ℕ) : List (ℕ × ℕ) :=
  (pyRange0 w tw).flatMap (fun x => (pyRange0 h th).map (fun y => (x, y)))

/-- Memoization state of calculate_tile_positions: the widget size, the
stored origin list, and the (widget size, tile size) pair of the last
computation. compute_count counts executions of the recompute branch. -/
structure TiledState where
  width : ℕ
  height : ℕ
  tile_positions : List (ℕ × ℕ)
  last_size : Option (ℕ × ℕ)
  last_tile_size : Option (ℕ × ℕ)
  compute_count : ℕ
deriving DecidableEq

/-- TiledImageWidget.calculate_tile_positions (TiledGIFWidget has the
same body): early-return when both the widget size and the tile size
equal those of the previous computation, otherwise rebuild the origin
list and record the new size pair. -/
def calculateTilePositions (ts : ℕ × ℕ) (s : TiledState) : TiledState :=
  if s.last_size = some (s.width, s.height) ∧ s.last_tile_size = some ts then s
  else
    { s with
      tile_positions := tilePositions s.width s.height ts.1 ts.2
      last_size := some (s.width, s.height)
      last_tile_size := some ts
      compute_count := s.compute_count + 1 }

/-! ## Scale adjustment (OverlayWindow.increase_scale / decrease_scale) -/

/-- Advanced-settings fields consulted by the scale-adjustment handlers
(defaults in the source: tile_scale 1.0, scale_factor 1.0,
enable_scale_limits True). -/
structure ScaleSettings where
  tile_scale : ℚ
  scale_factor : ℚ
  enable_scale_limits : Bool
deriving DecidableEq

/-- OverlayWindow.increase_scale: adds 0.1 to tile_scale when the scaling
mode is tile and to scale_factor otherwise; with scale limits enabled the
new value is min(new_scale, 10.0). -/
def increase_scale (mode : String) (s : ScaleSettings) : ScaleSettings :=
  if mode = "tile" then
    let ns := s.tile_scale + 1 / 10
    let ns2 := if s.enable_scale_limits then min ns 10 else ns
    { s with tile_scale := ns2 }
  else
    let ns := s.scale_factor + 1 / 10
    let ns2 := if s.enable_scale_limits then min ns 10 else ns
    { s with scale_factor := ns2 }

/-- OverlayWindow.decrease_scale: subtracts 0.1 from tile_scale when the
scaling mode is tile and from scale_factor otherwise; with scale limits
enabled the new value is max(new_scale, 0.1). -/
def decrease_scale (mode : String) (s : ScaleSettings) : ScaleSettings :=
  if mode = "tile" then
    let ns := s.tile_scale - 1 / 10
    let ns2 := if s.enable_scale_limits then max ns (1 / 10) else ns
    { s with tile_scale := ns2 }
  else
    let ns := s.scale_factor - 1 / 10
    let ns2 := if s.enable_scale_limits then max ns (1 / 10) else ns
    { s with scale_factor := ns2 }

/-- Scale value the handlers operate on: tile_scale in tile mode,
scale_factor otherwise. -/
def currentScale (mode : String) (s : ScaleSettings) : ℚ :=
  if mode = "tile" then s.tile_scale else s.scale_factor

/-- n repeated calls of increase_scale. -/
def iterInc (mode : String) : ℕ → ScaleSettings → ScaleSettings
  | 0, s => s
  | n + 1, s => increase_scale mode (iterInc mode n s)

/-- n repeated calls of decrease_scale. -/
def iterDec (mode : String) : ℕ → ScaleSettings → ScaleSettings
  | 0, s => s
  | n + 1, s => decrease_scale mode (iterDec mode n s)

/-- Clamped upward step on the active scale value with limits enabled. -/
def scaleUp (x : ℚ) : ℚ := min (x + 1 / 10) 10

/-- Clamped downward step on the active scale value with limits
enabled. -/
def scaleDown (x : ℚ) : ℚ := max (x - 1 / 10) (1 / 10)

/-- Example settings with a scale factor above the upper limit; settings
files are free-form JSON, and limits may also be enabled after the value
was raised with limits disabled. -/
def overLimitSettings : ScaleSettings :=
  { tile_scale := 1, scale_factor := 20, enable_scale_limits := true }

/-- Example settings within the limits. -/
def midScaleSettings : ScaleSettings :=
  { tile_scale := 1, scale_factor := 1, enable_scale_limits := true }

/-! ## OverlayWindow mouse/edit state -/

/-- Mouse/edit interaction flags of OverlayWindow. -/
structure WinState where
  edit_mode : Bool
  dragging : Bool
  resizing : Bool
  last_mouse_pos : Option (ℤ × ℤ)
deriving DecidableEq

/-- OverlayWindow.set_edit_mode: records the new edit-mode flag and
switches the cursor and the input-transparency window style; the
dragging and resizing flags are not touched by this handler. -/
def set_edit_mode (em : Bool) (s : WinState) : WinState :=
  { s with edit_mode := em }

/-- Mouse buttons distinguished by OverlayWindow.mousePressEvent. -/
inductive MouseButton where
  | left
  | right
deriving DecidableEq

/-- OverlayWindow.mousePressEvent at global position p: in edit mode the
left button starts a drag and the right button starts a resize; outside
edit mode the handler does nothing. -/
def mousePressEvent (b : MouseButton) (p : ℤ × ℤ) (s : WinState) : WinState :=
  if s.edit_mode then
    match b with
    | MouseButton.left => { s with dragging := true, last_mouse_pos := some p }
    | MouseButton.right => { s with resizing := true, last_mouse_pos := some p }
  else s

/-- OverlayWindow.mouseReleaseEvent: clears both the dragging and the
resizing flag, but only while edit mode is on. -/
def mouseReleaseEvent (s : WinState) : WinState :=
  if s.edit_mode then { s with dragging := false, resizing := false } else s

/-- Window state in edit mode with no gesture active. -/
def idleEditState : WinState :=
  { edit_mode := true, dragging := false, resizing := false, last_mouse_pos := none }

/-! ## TiledGIFWidget frame timer -/

/-- Timer and visibility state of TiledGIFWidget. repaint_count counts
the repaint() calls issued by the tick handler. -/
structure GifState where
  visible : Bool
  timer_active : Bool
  update_interval : ℤ
  repaint_count : ℕ
deriving DecidableEq

/-- Tick interval chosen in TiledGIFWidget.__init__:
max(movie.nextFrameDelay(), 20) milliseconds. -/
def gifUpdateInterval (nextFrameDelay : ℤ) : ℤ := max nextFrameDelay 20

/-- TiledGIFWidget.update_frame: a timer tick calls repaint() only while
the widget is visible; a tick that fires while hidden returns
immediately, so no paint (and hence no frame scaling or decoding, which
only happens inside paintEvent) is performed. -/
def update_frame (s : GifState) : GifState :=
  if s.visible then { s with repaint_count := s.repaint_count + 1 } else s

/-- TiledGIFWidget.hideEvent: runs once the widget is no longer visible
and stops the frame timer if it is active. -/
def gifHideEvent (s : GifState) : GifState :=
  { s with visible := false, timer_active := false }

/-- TiledGIFWidget.showEvent: the widget is visible again and the frame
timer is started if it is not active. -/
def gifShowEvent (s : GifState) : GifState :=
  { s with visible := true, timer_active := true }

/-- Example hidden GIF widget state. -/
def hiddenGifState : GifState :=
  { visible := false, timer_active := true, update_interval := 20, repaint_count := 0 }

/-! ## OverlayWindow.setImage / setScalingMode -/

/-- Window fields consulted by setImage and setScalingMode;
init_image_count counts invocations of initImage (the full re-render). -/
structure OWState where
  image_path : String
  scaling_mode : String
  init_image_count : ℕ
deriving DecidableEq

/-- OverlayWindow.setImage: early-returns when the path is unchanged,
otherwise stores the new path and re-renders through initImage. -/
def setImage (p : String) (s : OWState) : OWState :=
  if s.image_path = p then s
  else { s with image_path := p, init_image_count := s.init_image_count + 1 }

/-- OverlayWindow.setScalingMode: early-returns when the mode is
unchanged, otherwise stores the new mode and re-renders through
initImage. -/
def setScalingMode (m : String) (s : OWState) : OWState :=
  if s.scaling_mode = m then s
  else { s with scaling_mode := m, init_image_count := s.init_image_count + 1 }

/-- Example window state. -/
def sampleOWState : OWState :=
  { image_path := "a.png", scaling_mode := "fit", init_image_count := 0 }

/-! ## CachedImageRenderer (load_image and its LRU cache) -/

/-- QSize value carried in cache keys: (width, height). -/
abbrev Size := ℤ × ℤ

/-- Symbolic Qt image/pixmap value: either the decode result of
QImageReader.read for a path (with the reader-level scaled size and the
auto-transform flag that were set on the reader), or a scaled copy with
the requested dimensions, the aspect-ratio mode (true = KeepAspectRatio)
and the resample smoothness (true = SmoothTransformation). -/
inductive Img where
  | decoded (path : String) (scaledSize : Option Size) (autoTransform : Bool)
  | scaledBy (base : Img) (w h : ℤ) (keepAspect : Bool) (smooth : Bool)
deriving DecidableEq

/-- Cache key built by CachedImageRenderer.load_image: the value tuple
(image_path, target_size, scaling_mode, scale_factor) with structural
equality. -/
structure CacheKey where
  path : String
  target_size : Option Size
  scaling_mode : String
  scale_factor : ℚ
deriving DecidableEq

/-- Dict lookup self.cache[cache_key] (and the membership test
cache_key in self.cache) on the insertion-ordered association list. -/
def lookupC (c : List (CacheKey × Img)) (k : CacheKey) : Option Img :=
  (c.find? (fun p => decide (p.1 = k))).map Prod.snd

/-- Dict deletion del self.cache[oldest_key]: drops the binding for that
key (keys are unique in a dict). -/
def eraseKeyC (c : List (CacheKey × Img)) (k : CacheKey) : List (CacheKey × Img) :=
  c.filter (fun p => decide (p.1 ≠ k))

/-- Scaled dimensions requested in the fit and stretch branches of
load_image: max(1, int(target_size.width() * scale_factor)) and the same
for the height. -/
def fitScaledDims (t : Size) (sf : ℚ) : ℤ × ℤ :=
  (max 1 (pyInt ((t.1 : ℚ) * sf)), max 1 (pyInt ((t.2 : ℚ) * sf)))

/-- Scaled frame dimensions requested by TiledGIFWidget.get_scaled_frame:
max(1, int(frame.width() * tile_scale)) and the same for the height. -/
def gifScaledDims (fw fh : ℤ) (tileScale : ℚ) : ℤ × ℤ :=
  (max 1 (pyInt ((fw : ℚ) * tileScale)), max 1 (pyInt ((fh : ℚ) * tileScale)))

/-- State of CachedImageRenderer: the dict self.cache as an association
list in insertion order, the recency list self.cache_order, the capacity
self.max_cache_entries, and the two advanced settings load_image
consults. decode_count counts executions of image_reader.read() (the
decode-count instrumentation hook of the spec). -/
structure RendererState where
  cache : List (CacheKey × Img)
  cache_order : List CacheKey
  max_cache_entries : ℕ
  hw_accel : Bool
  antialias : Bool
  decode_count : ℕ
deriving DecidableEq

/-- CachedImageRenderer.__init__ with cache_size m and the two settings
flags. -/
def initRenderer (hw aa : Bool) (m : ℕ) : RendererState :=
  { cache := [], cache_order := [], max_cache_entries := m,
    hw_accel := hw, antialias := aa, decode_count := 0 }

/-- Decode-count bump at image_reader.read(). -/
def bumpDecode (s : RendererState) : RendererState :=
  { s with decode_count := s.decode_count + 1 }

/-- Capacity check before insertion: when len(cache) >= max_cache_entries
the key at the front of cache_order is popped and its entry deleted.
Python raises IndexError popping from an empty recency list (reachable
only with max_cache_entries = 0); that case is modeled as leaving the
state unchanged. -/
def evictIfFull (s : RendererState) : RendererState :=
  if s.max_cache_entries ≤ s.cache.length then
    match s.cache_order with
    | [] => s
    | e :: rest => { s with cache := eraseKeyC s.cache e, cache_order := rest }
  else s

/-- Store the new pixmap: cache[cache_key] = pixmap and
cache_order.append(cache_key). -/
def insertEntry (s : RendererState) (k : CacheKey) (img : Img) : RendererState :=
  { s with cache := s.cache ++ [(k, img)], cache_order := s.cache_order ++ [k] }

/-- Scaling step of load_image after a successful decode: fit scales to
the clamped target dimensions keeping the aspect ratio, stretch ignores
it, any other mode leaves the decoded image as is; smoothness follows
enable_antialiasing. In the fit/stretch branches Python dereferences
target_size, so a None target there raises AttributeError, modeled as
none. -/
def scaledResult (s : RendererState) (img0 : Img) (target_size : Option Size)
    (scaling_mode : String) (scale_factor : ℚ) : Option Img :=
  if scaling_mode = "fit" then
    match target_size with
    | none => none
    | some t =>
        let d := fitScaledDims t scale_factor
        some (Img.scaledBy img0 d.1 d.2 true s.antialias)
  else if scaling_mode = "stretch" then
    match target_size with
    | none => none
    | some t =>
        let d := fitScaledDims t scale_factor
        some (Img.scaledBy img0 d.1 d.2 false s.antialias)
  else some img0

/-- Outcome of load_image: a pixmap, the None returned for a null decode,
or the AttributeError raised when target_size is None in the fit/stretch
branches. -/
inductive LoadResult where
  | ok (pix : Img)
  | nullImage
  | typeError
deriving DecidableEq

/-- CachedImageRenderer.load_image. env gives the decoder outcome per
path (none when QImageReader.read yields a null image, e.g. an unreadable
or zero-sized source). On a hit the key is bumped to the tail of
cache_order and the cached pixmap returned with no decode; on a miss the
source is decoded, scaled per scaling_mode, the front key of cache_order
evicted when the cache is at capacity, and the new pixmap inserted. -/
def loadImage (env : String → Option Size) (s : RendererState) (path : String)
    (target_size : Option Size) (scaling_mode : String) (scale_factor : ℚ) :
    LoadResult × RendererState :=
  let key : CacheKey := ⟨path, target_size, scaling_mode, scale_factor⟩
  match lookupC s.cache key with
  | some pix =>
      (LoadResult.ok pix,
        { s with cache_order := s.cache_order.erase key ++ [key] })
  | none =>
      match env path with
      | none => (LoadResult.nullImage, bumpDecode s)
      | some _ =>
          match scaledResult s (Img.decoded path target_size s.hw_accel)
              target_size scaling_mode scale_factor with
          | none => (LoadResult.typeError, bumpDecode s)
          | some img =>
              (LoadResult.ok img, insertEntry (evictIfFull (bumpDecode s)) key img)

/-- Argument tuple of one load_image call. -/
structure LoadCall where
  path : String
  target_size : Option Size
  scaling_mode : String
  scale_factor : ℚ
deriving DecidableEq

/-- Cache key a call constructs. -/
def keyOfCall (c : LoadCall) : CacheKey :=
  ⟨c.path, c.target_size, c.scaling_mode, c.scale_factor⟩

/-- Renderer state after one load_image call. -/
def stepR (env : String → Option Size) (s : RendererState) (c : LoadCall) : RendererState :=
  (loadImage env s c.path c.target_size c.scaling_mode c.scale_factor).2

/-- Key accessed by a call: its key when the call returns a pixmap (a hit
bump or a fresh insertion); none when nothing was stored or touched. -/
def accessedKey (env : String → Option Size) (s : RendererState) (c : LoadCall) :
    Option CacheKey :=
  match (loadImage env s c.path c.target_size c.scaling_mode c.scale_factor).1 with
  | LoadResult.ok _ => some (keyOfCall c)
  | _ => none

/-- Chronological log entry contributed by one call. -/
def accessLog (env : String → Option Size) (s : RendererState) (c : LoadCall) :
    List CacheKey :=
  (accessedKey env s c).toList

/-- Run a sequence of load_image calls while extending the access log. -/
def runLogAux (env : String → Option Size) :
    List LoadCall → RendererState × List CacheKey → RendererState × List CacheKey
  | [], p => p
  | c :: cs, p => runLogAux env cs (stepR env p.1 c, p.2 ++ accessLog env p.1 c)

/-- Run a sequence of load_image calls from a state with an empty log,
returning the final state and the chronological list of accessed keys. -/
def runWithLog (env : String → Option Size) (calls : List LoadCall)
    (s : RendererState) : RendererState × List CacheKey :=
  runLogAux env calls (s, [])

/-- Recency of a key's latest access: its index from the end of the
access log (List.indexOf on the reversed log); smaller means more
recently accessed, and keys never accessed sit at the log length. -/
def lastAccessDepth (log : List CacheKey) (k : CacheKey) : ℕ :=
  List.indexOf k log.reverse

/-- Environment in which every path decodes (with a 1 by 1 size). -/
def envOk : String → Option Size := fun _ => some (1, 1)

/-- Environment in which every decode fails (null image). -/
def envNone : String → Option Size := fun _ => none

/-- Example cache key with no reader-level target size, center mode. -/
def sampleKey : CacheKey := ⟨"a.png", none, "center", 1⟩

/-- Example pixmap. -/
def sampleImg : Img := Img.decoded "a.png" none true

/-- Example renderer state whose cache holds sampleKey. -/
def sampleRenderer : RendererState :=
  { cache := [(sampleKey, sampleImg)], cache_order := [sampleKey],
    max_cache_entries := 1, hw_accel := true, antialias := true, decode_count := 0 }

/-- Example load_image call (center mode, so no target size needed). -/
def sampleCall : LoadCall :=
  { path := "a.png", target_size := none, scaling_mode := "center", scale_factor := 1 }

/-! ## TiledImageWidget paint path -/

/-- State of TiledImageWidget relevant to its paint path: the image path,
the tile_scale advanced setting, the tiling memo state and the embedded
CachedImageRenderer. -/
structure TiledWidgetState where
  image_path : String
  tile_scale_setting : ℚ
  tiles : TiledState
  rend : RendererState

/-- Tile scale used by TiledImageWidget.paintEvent:
max(0.01, advanced_settings tile_scale). -/
def paintTileScale (w : TiledWidgetState) : ℚ := max (1 / 100) w.tile_scale_setting

/-- Base tile size requested by TiledImageWidget.paintEvent:
(int(width * tile_scale), int(height * tile_scale)). -/
def paintBaseSize (w : TiledWidgetState) : Size :=
  (pyInt ((w.tiles.width : ℚ) * paintTileScale w),
   pyInt ((w.tiles.height : ℚ) * paintTileScale w))

/-- Cache key constructed by the paint path's load_image call. -/
def paintKey (w : TiledWidgetState) : CacheKey :=
  ⟨w.image_path, some (paintBaseSize w), "fit", paintTileScale w⟩

/-- TiledImageWidget.paintEvent: load the base tile through the renderer;
when a pixmap is produced, recompute the tile positions for its size,
refresh the background buffer and paint it (reported as true); when
load_image returns no pixmap the handler returns without painting.
pixSize gives the size of a Qt pixmap. -/
def paintEventT (pixSize : Img → ℕ × ℕ) (env : String → Option Size)
    (w : TiledWidgetState) : TiledWidgetState × Bool :=
  let r := loadImage env w.rend w.image_path (some (paintBaseSize w)) "fit"
    (paintTileScale w)
  match r.1 with
  | LoadResult.ok pix =>
      ({ w with rend := r.2, tiles := calculateTilePositions (pixSize pix) w.tiles }, true)
  | _ => ({ w with rend := r.2 }, false)

/-- Pixmap size measure that reports 1 by 1 for every pixmap. -/
def pixSizeOne : Img → ℕ × ℕ := fun _ => (1, 1)

/-- Example tiled widget whose renderer cache is empty. -/
def sampleWidget : TiledWidgetState :=
  { image_path := "x.png", tile_scale_setting := 1,
    tiles := { width := 0, height := 0, tile_positions := [], last_size := none,
               last_tile_size := none, compute_count := 0 },
    rend := initRenderer true true 1 }

/-- Invariant tying a renderer state to the chronological access log:
the recency list has no duplicates, is a permutation of the keys of the
cache, is ordered from least to most recently accessed (strictly
decreasing lastAccessDepth toward the tail), and the cache never exceeds
its positive capacity. -/
structure CacheInv (s : RendererState) (log : List CacheKey) : Prop where
  nodup : s.cache_order.Nodup
  perm : s.cache_order.Perm (s.cache.map Prod.fst)
  sorted : s.cache_order.Pairwise
    (fun a b => lastAccessDepth log b < lastAccessDepth log a)
  max_pos : 1 ≤ s.max_cache_entries
  len_le : s.cache.length ≤ s.max_cache_entries

/-! ## Theorems -/

set_option maxRecDepth 8000 in
/-- C5: for a 1920 by 1080 target and 100 by 50 tiles the computed origin
list has ceil(1920/100) * ceil(1080/50) = 20 * 22 = 440 entries, starting
at (0,0) and ending at (1900,1050). -/
theorem c5_tile_positions_scenario :
    (tilePositions 1920 1080 100 50).length = 440 ∧
    (tilePositions 1920 1080 100 50).length =
      ((1920 + 100 - 1) / 100) * ((1080 + 50 - 1) / 50) ∧
    (tilePositions 1920 1080 100 50).head? = some (0, 0) ∧
    (tilePositions 1920 1080 100 50).getLast? = some (1900, 1050) := by
  refine ⟨?_, ?_, ?_, ?_⟩ <;> decide

/-- C10: setImage with the current path and setScalingMode with the
current mode leave the window state entirely unchanged; in particular
initImage is not invoked (the instrumentation counter is untouched). -/
theorem c10_setters_noop (s : OWState) (p m : String)
    (h1 : s.image_path = p) (h2 : s.scaling_mode = m) :
    setImage p s = s ∧ setScalingMode m s = s := by
  constructor
  · simp [setImage, h1]
  · simp [setScalingMode, h2]

/-- Witness for C10 at a concrete window state. -/
theorem c10_setters_noop_witness :
    setImage "a.png" sampleOWState = sampleOWState ∧
    setScalingMode "fit" sampleOWState = sampleOWState :=
  c10_setters_noop sampleOWState "a.png" "fit" rfl rfl

/-- C7: evaluating the code at the failing input. Starting from edit mode
with no active gesture, a right-button press sets resizing, and
set_edit_mode False then leaves resizing still true: the handler never
clears the dragging/resizing flags, and mouseReleaseEvent only clears
them while edit mode is on, contradicting the required consistent
non-resizing state after leaving edit mode. -/
theorem c7_stale_resizing_flag :
    (set_edit_mode false (mousePressEvent MouseButton.right (0, 0) idleEditState)).resizing
      = true ∧
    (mouseReleaseEvent
        (set_edit_mode false (mousePressEvent MouseButton.right (0, 0) idleEditState))).resizing
      = true := by
  constructor <;> rfl

/-- C8: the tick interval is max(nativeFrameDelay, 20); a tick while the
widget is hidden leaves the state entirely unchanged (no repaint and no
decode work); and hideEvent leaves the widget hidden with the frame timer
stopped. -/
theorem c8_hidden_ticks_suppressed (d : ℤ) (s s2 : GifState)
    (hvis : s.visible = false) :
    gifUpdateInterval d = max d 20 ∧
    update_frame s = s ∧
    (gifHideEvent s2).timer_active = false ∧
    (gifHideEvent s2).visible = false := by
  refine ⟨rfl, ?_, rfl, rfl⟩
  simp [update_frame, hvis]

/-- Witness for C8 at a concrete hidden state. -/
theorem c8_hidden_ticks_suppressed_witness :
    hiddenGifState.visible = false ∧ update_frame hiddenGifState = hiddenGifState :=
  ⟨rfl, (c8_hidden_ticks_suppressed 20 hiddenGifState hiddenGifState rfl).2.1⟩

/-- C4: calculate_tile_positions is memoized and idempotent: a second
call with the widget size and tile size unchanged returns the state of
the first call unchanged (same stored positions, recompute branch not
entered), and the recompute branch is skipped exactly when the size pair
equals that of the last computation. -/
theorem c4_memoized_tile_positions (s : TiledState) (ts : ℕ × ℕ) :
    calculateTilePositions ts (calculateTilePositions ts s) = calculateTilePositions ts s ∧
    ((calculateTilePositions ts s).compute_count = s.compute_count ↔
      (s.last_size = some (s.width, s.height) ∧ s.last_tile_size = some ts)) := by
  constructor
  · by_cases h : s.last_size = some (s.width, s.height) ∧ s.last_tile_size = some ts
    · simp [calculateTilePositions, h]
    · simp [calculateTilePositions, h]
  · by_cases h : s.last_size = some (s.width, s.height) ∧ s.last_tile_size = some ts
    · simp [calculateTilePositions, h]
    · simp [calculateTilePositions, h]

theorem lookupC_nil (k : CacheKey) : lookupC [] k = none := rfl

theorem lookupC_cons (a : CacheKey × Img) (t : List (CacheKey × Img)) (k : CacheKey) :
    lookupC (a :: t) k = if a.1 = k then some a.2 else lookupC t k := by
  by_cases ha : a.1 = k <;>
    simp [lookupC, List.find?_cons_of_pos, List.find?_cons_of_neg, ha]

theorem eraseKeyC_cons (a : CacheKey × Img) (t : List (CacheKey × Img)) (e : CacheKey) :
    eraseKeyC (a :: t) e = if a.1 = e then eraseKeyC t e else a :: eraseKeyC t e := by
  by_cases ha : a.1 = e <;> simp [eraseKeyC, ha]

theorem lookupC_append_of_some {c1 : List (CacheKey × Img)} {k : CacheKey} {v : Img}
    (c2 : List (CacheKey × Img)) (h : lookupC c1 k = some v) :
    lookupC (c1 ++ c2) k = some v := by
  induction c1 with
  | nil => rw [lookupC_nil] at h; exact Option.noConfusion h
  | cons a t ih =>
    rw [lookupC_cons] at h
    rw [List.cons_append, lookupC_cons]
    by_cases ha : a.1 = k
    · rw [if_pos ha] at h ⊢; exact h
    · rw [if_neg ha] at h ⊢; exact ih h

theorem lookupC_append_of_none {c1 : List (CacheKey × Img)} {k : CacheKey}
    (c2 : List (CacheKey × Img)) (h : lookupC c1 k = none) :
    lookupC (c1 ++ c2) k = lookupC c2 k := by
  induction c1 with
  | nil => simp
  | cons a t ih =>
    rw [lookupC_cons] at h
    rw [List.cons_append, lookupC_cons]
    by_cases ha : a.1 = k
    · rw [if_pos ha] at h; exact Option.noConfusion h
    · rw [if_neg ha] at h ⊢; exact ih h

theorem lookupC_eraseKeyC_self (c : List (CacheKey × Img)) (e : CacheKey) :
    lookupC (eraseKeyC c e) e = none := by
  induction c with
  | nil => rfl
  | cons a t ih =>
    rw [eraseKeyC_cons]
    by_cases ha : a.1 = e
    · rw [if_pos ha]; exact ih
    · rw [if_neg ha, lookupC_cons, if_neg ha]; exact ih

theorem lookupC_eraseKeyC_ne (c : List (CacheKey × Img)) {e k : CacheKey} (h : k ≠ e) :
    lookupC (eraseKeyC c e) k = lookupC c k := by
  induction c with
  | nil => rfl
  | cons a t ih =>
    rw [eraseKeyC_cons, lookupC_cons]
    by_cases ha : a.1 = e
    · have hak : a.1 ≠ k := fun hh => h (hh ▸ ha ▸ rfl)
      rw [if_pos ha, if_neg hak]; exact ih
    · rw [if_neg ha, lookupC_cons]
      by_cases hak : a.1 = k
      · rw [if_pos hak, if_pos hak]
      · rw [if_neg hak, if_neg hak]; exact ih

theorem lookup_evictIfFull (s : RendererState) (k : CacheKey) :
    lookupC (evictIfFull s).cache k = lookupC s.cache k ∨
    lookupC (evictIfFull s).cache k = none := by
  unfold evictIfFull
  split
  · cases ho : s.cache_order with
    | nil => exact Or.inl rfl
    | cons e rest =>
      by_cases hk : k = e
      · subst hk; exact Or.inr (lookupC_eraseKeyC_self _ _)
      · exact Or.inl (lookupC_eraseKeyC_ne _ hk)
  · exact Or.inl rfl

theorem loadImage_shape (env : String → Option Size) (s : RendererState) (c : LoadCall) :
    (∃ pix, lookupC s.cache (keyOfCall c) = some pix ∧
      (loadImage env s c.path c.target_size c.scaling_mode c.scale_factor).1 =
        LoadResult.ok pix ∧
      stepR env s c =
        { s with cache_order := s.cache_order.erase (keyOfCall c) ++ [keyOfCall c] } ∧
      accessLog env s c = [keyOfCall c]) ∨
    ((stepR env s c).cache = s.cache ∧ (stepR env s c).cache_order = s.cache_order ∧
      (stepR env s c).max_cache_entries = s.max_cache_entries ∧
      accessLog env s c = []) ∨
    (lookupC s.cache (keyOfCall c) = none ∧ ∃ img,
      stepR env s c = insertEntry (evictIfFull (bumpDecode s)) (keyOfCall c) img ∧
      accessLog env s c = [keyOfCall c]) := by
  cases hl : lookupC s.cache (keyOfCall c) with
  | some pix =>
    unfold keyOfCall at hl
    refine Or.inl ⟨pix, rfl, ?_, ?_, ?_⟩
    · simp [loadImage, hl]
    · simp [stepR, loadImage, hl, keyOfCall]
    · simp [accessLog, accessedKey, loadImage, hl, keyOfCall]
  | none =>
    unfold keyOfCall at hl
    cases he : env c.path with
    | none =>
      refine Or.inr (Or.inl ⟨?_, ?_, ?_, ?_⟩) <;>
        simp [stepR, accessLog, accessedKey, loadImage, hl, he, bumpDecode]
    | some sz =>
      cases hs : scaledResult s (Img.decoded c.path c.target_size s.hw_accel)
          c.target_size c.scaling_mode c.scale_factor with
      | none =>
        refine Or.inr (Or.inl ⟨?_, ?_, ?_, ?_⟩) <;>
          simp [stepR, accessLog, accessedKey, loadImage, hl, he, hs, bumpDecode]
      | some img =>
        refine Or.inr (Or.inr ⟨rfl, img, ?_, ?_⟩)
        · simp [stepR, loadImage, hl, he, hs, keyOfCall]
        · simp [accessLog, accessedKey, loadImage, hl, he, hs, keyOfCall]

/-- C9: the output dimensions computed by the scaling paths of
load_image (fit and stretch) and of get_scaled_frame are at least 1 in
both axes, for every target size and every scale factor including values
at or below zero. -/
theorem c9_dims_clamped_to_one (t : Size) (sf : ℚ) (fw fh : ℤ) (tl : ℚ) :
    1 ≤ (fitScaledDims t sf).1 ∧ 1 ≤ (fitScaledDims t sf).2 ∧
    1 ≤ (gifScaledDims fw fh tl).1 ∧ 1 ≤ (gifScaledDims fw fh tl).2 :=
  ⟨le_max_left _ _, le_max_left _ _, le_max_left _ _, le_max_left _ _⟩

/-- C6: when the decoder yields a null image (unreadable or zero-sized
source) and the requested key is not cached, load_image returns the
no-image result (None) instead of raising, and the tiled widget's paint
handler skips painting for that frame: it reports no paint, leaves the
tile state untouched and stores nothing in the cache. -/
theorem c6_null_decode_skips_paint (pixSize : Img → ℕ × ℕ)
    (env : String → Option Size) (w : TiledWidgetState)
    (hmiss : lookupC w.rend.cache (paintKey w) = none)
    (hdec : env w.image_path = none) :
    (loadImage env w.rend w.image_path (some (paintBaseSize w)) "fit"
      (paintTileScale w)).1 = LoadResult.nullImage ∧
    (paintEventT pixSize env w).2 = false ∧
    (paintEventT pixSize env w).1.tiles = w.tiles ∧
    (paintEventT pixSize env w).1.rend.cache = w.rend.cache := by
  have hload : loadImage env w.rend w.image_path (some (paintBaseSize w)) "fit"
      (paintTileScale w) = (LoadResult.nullImage, bumpDecode w.rend) := by
    unfold paintKey at hmiss
    simp [loadImage, hmiss, hdec]
  refine ⟨by rw [hload], ?_, ?_, ?_⟩ <;> simp [paintEventT, hload, bumpDecode]

/-- Witness for C6 at a concrete widget with an empty cache and a failing
decoder. -/
theorem c6_null_decode_skips_paint_witness :
    lookupC sampleWidget.rend.cache (paintKey sampleWidget) = none ∧
    envNone sampleWidget.image_path = none ∧
    (paintEventT pixSizeOne envNone sampleWidget).2 = false :=
  ⟨rfl, rfl, (c6_null_decode_skips_paint pixSizeOne envNone sampleWidget rfl rfl).2.1⟩

/-- C2: a load_image call whose key is already cached returns exactly the
pixmap stored for that key, enters no decode branch (the decode counter
is unchanged) and leaves the cache contents unchanged; moreover no later
call ever rebinds a cached key to a different pixmap: the binding either
survives unchanged or the key is evicted, so a hit always returns the
bitmap stored at first insertion. -/
theorem c2_hit_returns_stored_pixmap (env : String → Option Size) (s : RendererState)
    (path : String) (ts : Option Size) (mode : String) (sf : ℚ) (pix : Img)
    (hhit : lookupC s.cache ⟨path, ts, mode, sf⟩ = some pix) :
    (loadImage env s path ts mode sf).1 = LoadResult.ok pix ∧
    (loadImage env s path ts mode sf).2.cache = s.cache ∧
    (loadImage env s path ts mode sf).2.decode_count = s.decode_count ∧
    (∀ c : LoadCall, lookupC (stepR env s c).cache ⟨path, ts, mode, sf⟩ = some pix ∨
      lookupC (stepR env s c).cache ⟨path, ts, mode, sf⟩ = none) := by
  refine ⟨by simp [loadImage, hhit], by simp [loadImage, hhit],
    by simp [loadImage, hhit], ?_⟩
  intro c
  rcases loadImage_shape env s c with ⟨pix2, _, _, hstep, _⟩ | ⟨hc, _, _, _⟩ |
      ⟨hnone, img, hstep, _⟩
  · rw [hstep]; exact Or.inl hhit
  · rw [hc]; exact Or.inl hhit
  · have hne : (⟨path, ts, mode, sf⟩ : CacheKey) ≠ keyOfCall c := by
      intro hh
      rw [hh] at hhit
      rw [hhit] at hnone
      exact Option.noConfusion hnone
    rw [hstep]
    show lookupC ((evictIfFull (bumpDecode s)).cache ++ [(keyOfCall c, img)]) _ = _ ∨
      lookupC ((evictIfFull (bumpDecode s)).cache ++ [(keyOfCall c, img)]) _ = none
    rcases lookup_evictIfFull (bumpDecode s) ⟨path, ts, mode, sf⟩ with hev | hev
    · left
      refine lookupC_append_of_some _ ?_
      rw [hev]
      exact hhit
    · right
      rw [lookupC_append_of_none _ hev, lookupC_cons]
      rw [if_neg (fun hh : (keyOfCall c, img).1 = (⟨path, ts, mode, sf⟩ : CacheKey) =>
        hne hh.symm)]
      rfl

/-- Witness for C2 at a concrete one-entry cache. -/
theorem c2_hit_returns_stored_pixmap_witness :
    lookupC sampleRenderer.cache sampleKey = some sampleImg ∧
    (loadImage envOk sampleRenderer "a.png" none "center" 1).1 = LoadResult.ok sampleImg ∧
    (loadImage envOk sampleRenderer "a.png" none "center" 1).2.decode_count =
      sampleRenderer.decode_count := by
  have h : lookupC sampleRenderer.cache ⟨"a.png", none, "center", 1⟩ = some sampleImg := by
    decide
  exact ⟨h, (c2_hit_returns_stored_pixmap envOk sampleRenderer "a.png" none "center" 1
    sampleImg h).1,
    (c2_hit_returns_stored_pixmap envOk sampleRenderer "a.png" none "center" 1
    sampleImg h).2.2.1⟩

theorem increase_scale_keeps_limits (m : String) (s : ScaleSettings) :
    (increase_scale m s).enable_scale_limits = s.enable_scale_limits := by
  unfold increase_scale; split <;> rfl

theorem decrease_scale_keeps_limits (m : String) (s : ScaleSettings) :
    (decrease_scale m s).enable_scale_limits = s.enable_scale_limits := by
  unfold decrease_scale; split <;> rfl

theorem currentScale_increase (m : String) (s : ScaleSettings)
    (hl : s.enable_scale_limits = true) :
    currentScale m (increase_scale m s) = scaleUp (currentScale m s) := by
  by_cases hm : m = "tile" <;> simp [currentScale, increase_scale, scaleUp, hm, hl]

theorem currentScale_decrease (m : String) (s : ScaleSettings)
    (hl : s.enable_scale_limits = true) :
    currentScale m (decrease_scale m s) = scaleDown (currentScale m s) := by
  by_cases hm : m = "tile" <;> simp [currentScale, decrease_scale, scaleDown, hm, hl]

theorem iterInc_keeps_limits (m : String) (s : ScaleSettings) (n : ℕ) :
    (iterInc m n s).enable_scale_limits = s.enable_scale_limits := by
  induction n with
  | zero => rfl
  | succ n ih => rw [iterInc, increase_scale_keeps_limits, ih]

theorem iterDec_keeps_limits (m : String) (s : ScaleSettings) (n : ℕ) :
    (iterDec m n s).enable_scale_limits = s.enable_scale_limits := by
  induction n with
  | zero => rfl
  | succ n ih => rw [iterDec, decrease_scale_keeps_limits, ih]

theorem currentScale_iterInc (m : String) (s : ScaleSettings)
    (hl : s.enable_scale_limits = true) (n : ℕ) :
    currentScale m (iterInc m n s) = scaleUp^[n] (currentScale m s) := by
  induction n with
  | zero => rfl
  | succ n ih =>
    rw [iterInc, Function.iterate_succ_apply', ← ih]
    exact currentScale_increase m _ ((iterInc_keeps_limits m s n).trans hl)

theorem currentScale_iterDec (m : String) (s : ScaleSettings)
    (hl : s.enable_scale_limits = true) (n : ℕ) :
    currentScale m (iterDec m n s) = scaleDown^[n] (currentScale m s) := by
  induction n with
  | zero => rfl
  | succ n ih =>
    rw [iterDec, Function.iterate_succ_apply', ← ih]
    exact currentScale_decrease m _ ((iterDec_keeps_limits m s n).trans hl)

theorem scaleUp_le_ten (x : ℚ) : scaleUp x ≤ 10 := min_le_right _ _

theorem scaleDown_ge_tenth (x : ℚ) : 1 / 10 ≤ scaleDown x := le_max_right _ _

theorem scaleUp_iter_of_le (x : ℚ) (hx : x ≤ 10) (n : ℕ) :
    scaleUp^[n] x = min (x + n / 10) 10 := by
  induction n with
  | zero => simp [min_eq_left hx]
  | succ n ih =>
    rw [Function.iterate_succ_apply', ih, scaleUp]
    push_cast
    rcases le_total (x + n / 10) 10 with h1 | h1
    · rw [min_eq_left h1]
      ring_nf
    · rw [min_eq_right h1, min_eq_right (by linarith), min_eq_right (by linarith)]

theorem scaleDown_iter_of_ge (x : ℚ) (hx : 1 / 10 ≤ x) (n : ℕ) :
    scaleDown^[n] x = max (x - n / 10) (1 / 10) := by
  induction n with
  | zero =>
    rw [Function.iterate_zero_apply, Nat.cast_zero, zero_div, sub_zero]
    exact (max_eq_left hx).symm
  | succ n ih =>
    rw [Function.iterate_succ_apply', ih, scaleDown]
    push_cast
    rcases le_total (1 / 10 : ℚ) (x - n / 10) with h1 | h1
    · rw [max_eq_left h1]
      ring_nf
    · rw [max_eq_right h1, max_eq_right (by linarith), max_eq_right (by linarith)]

theorem scaleUp_iter_mono (x : ℚ) (hx : x ≤ 10) (n : ℕ) :
    scaleUp^[n] x ≤ scaleUp^[n + 1] x := by
  rw [scaleUp_iter_of_le x hx n, scaleUp_iter_of_le x hx (n + 1)]
  refine min_le_min ?_ le_rfl
  push_cast
  linarith

theorem scaleDown_iter_anti (x : ℚ) (hx : 1 / 10 ≤ x) (n : ℕ) :
    scaleDown^[n + 1] x ≤ scaleDown^[n] x := by
  rw [scaleDown_iter_of_ge x hx n, scaleDown_iter_of_ge x hx (n + 1)]
  refine max_le_max ?_ le_rfl
  push_cast
  linarith

theorem scaleUp_iter_converges (x : ℚ) :
    ∃ N : ℕ, ∀ n : ℕ, N ≤ n → scaleUp^[n] x = 10 := by
  refine ⟨⌈(10 - scaleUp x) * 10⌉₊ + 1, ?_⟩
  intro n hn
  obtain ⟨m, rfl⟩ : ∃ m, n = m + 1 :=
    ⟨n - 1, (Nat.succ_pred_eq_of_pos (by omega)).symm⟩
  rw [Function.iterate_succ_apply, scaleUp_iter_of_le (scaleUp x) (scaleUp_le_ten x) m]
  have hmn : ⌈(10 - scaleUp x) * 10⌉₊ ≤ m := Nat.succ_le_succ_iff.mp hn
  have hm : ((⌈(10 - scaleUp x) * 10⌉₊ : ℕ) : ℚ) ≤ (m : ℚ) := Nat.cast_le.mpr hmn
  have hceil : (10 - scaleUp x) * 10 ≤ ((⌈(10 - scaleUp x) * 10⌉₊ : ℕ) : ℚ) :=
    Nat.le_ceil _
  refine min_eq_right ?_
  linarith

theorem scaleDown_iter_converges (x : ℚ) :
    ∃ N : ℕ, ∀ n : ℕ, N ≤ n → scaleDown^[n] x = 1 / 10 := by
  refine ⟨⌈(scaleDown x - 1 / 10) * 10⌉₊ + 1, ?_⟩
  intro n hn
  obtain ⟨m, rfl⟩ : ∃ m, n = m + 1 :=
    ⟨n - 1, (Nat.succ_pred_eq_of_pos (by omega)).symm⟩
  rw [Function.iterate_succ_apply,
    scaleDown_iter_of_ge (scaleDown x) (scaleDown_ge_tenth x) m]
  have hmn : ⌈(scaleDown x - 1 / 10) * 10⌉₊ ≤ m := Nat.succ_le_succ_iff.mp hn
  have hm : ((⌈(scaleDown x - 1 / 10) * 10⌉₊ : ℕ) : ℚ) ≤ (m : ℚ) := Nat.cast_le.mpr hmn
  have hceil : (scaleDown x - 1 / 10) * 10 ≤ ((⌈(scaleDown x - 1 / 10) * 10⌉₊ : ℕ) : ℚ) :=
    Nat.le_ceil _
  refine max_eq_right ?_
  linarith

/-- C3 counterexample: with scale limits enabled and a non-tile mode,
one increase_scale call from scale_factor 20 clamps the value down to
10, so the sequence of values under repeated increase_scale is not
monotonically non-decreasing for every starting scale value. -/
theorem c3_monotone_counterexample :
    (increase_scale "fit" overLimitSettings).scale_factor <
      overLimitSettings.scale_factor := by
  have hc : ¬ ("fit" : String) = "tile" := by decide
  simp only [increase_scale, if_neg hc, overLimitSettings]
  norm_num [min_def]

/-- C3 amended: with scale limits enabled, repeated increase_scale is
monotonically non-decreasing from every starting value at most 10.0 (not
from arbitrary starting values, as the counterexample shows) and from
every starting value eventually reaches and stays at exactly 10.0;
repeated decrease_scale is monotonically non-increasing from every
starting value at least 0.1 and converges to exactly 0.1; each call
steps the active value by 0.1 clamped at the bound, operating on
tile_scale when the scaling mode is tile and on scale_factor otherwise,
leaving the other field unchanged. -/
theorem c3_scale_adjustment_amended (m : String) (s : ScaleSettings)
    (hl : s.enable_scale_limits = true) :
    (currentScale m s ≤ 10 → ∀ n : ℕ,
      currentScale m (iterInc m n s) ≤ currentScale m (iterInc m (n + 1) s)) ∧
    (∃ N : ℕ, ∀ n : ℕ, N ≤ n → currentScale m (iterInc m n s) = 10) ∧
    (1 / 10 ≤ currentScale m s → ∀ n : ℕ,
      currentScale m (iterDec m (n + 1) s) ≤ currentScale m (iterDec m n s)) ∧
    (∃ N : ℕ, ∀ n : ℕ, N ≤ n → currentScale m (iterDec m n s) = 1 / 10) ∧
    (m = "tile" →
      (increase_scale m s).tile_scale = min (s.tile_scale + 1 / 10) 10 ∧
      (increase_scale m s).scale_factor = s.scale_factor ∧
      (decrease_scale m s).tile_scale = max (s.tile_scale - 1 / 10) (1 / 10) ∧
      (decrease_scale m s).scale_factor = s.scale_factor) ∧
    (m ≠ "tile" →
      (increase_scale m s).scale_factor = min (s.scale_factor + 1 / 10) 10 ∧
      (increase_scale m s).tile_scale = s.tile_scale ∧
      (decrease_scale m s).scale_factor = max (s.scale_factor - 1 / 10) (1 / 10) ∧
      (decrease_scale m s).tile_scale = s.tile_scale) := by
  refine ⟨?_, ?_, ?_, ?_, ?_, ?_⟩
  · intro hx n
    rw [currentScale_iterInc m s hl n, currentScale_iterInc m s hl (n + 1)]
    exact scaleUp_iter_mono _ hx n
  · obtain ⟨N, hN⟩ := scaleUp_iter_converges (currentScale m s)
    refine ⟨N, fun n hn => ?_⟩
    rw [currentScale_iterInc m s hl n]
    exact hN n hn
  · intro hx n
    rw [currentScale_iterDec m s hl n, currentScale_iterDec m s hl (n + 1)]
    exact scaleDown_iter_anti _ hx n
  · obtain ⟨N, hN⟩ := scaleDown_iter_converges (currentScale m s)
    refine ⟨N, fun n hn => ?_⟩
    rw [currentScale_iterDec m s hl n]
    exact hN n hn
  · intro hm
    refine ⟨?_, ?_, ?_, ?_⟩ <;> simp [increase_scale, decrease_scale, hm, hl]
  · intro hm
    refine ⟨?_, ?_, ?_, ?_⟩ <;> simp [increase_scale, decrease_scale, hm, hl]

/-- Witness for the amended C3 at concrete in-range settings. -/
theorem c3_scale_adjustment_amended_witness :
    midScaleSettings.enable_scale_limits = true ∧
    (increase_scale "fit" midScaleSettings).tile_scale = midScaleSettings.tile_scale :=
  ⟨rfl, ((c3_scale_adjustment_amended "fit" midScaleSettings rfl).2.2.2.2.2
    (by decide)).2.1⟩

theorem mem_keys_of_lookupC {c : List (CacheKey × Img)} {k : CacheKey} {v : Img}
    (h : lookupC c k = some v) : k ∈ c.map Prod.fst := by
  induction c with
  | nil => rw [lookupC_nil] at h; exact Option.noConfusion h
  | cons a t ih =>
    rw [lookupC_cons] at h
    by_cases ha : a.1 = k
    · rw [List.map_cons, ha]; exact List.mem_cons_self _ _
    · rw [if_neg ha] at h
      rw [List.map_cons]
      exact List.mem_cons_of_mem _ (ih h)

theorem not_mem_keys_of_lookupC_none {c : List (CacheKey × Img)} {k : CacheKey}
    (h : lookupC c k = none) : k ∉ c.map Prod.fst := by
  induction c with
  | nil => simp
  | cons a t ih =>
    rw [lookupC_cons] at h
    by_cases ha : a.1 = k
    · rw [if_pos ha] at h; exact Option.noConfusion h
    · rw [if_neg ha] at h
      rw [List.map_cons]
      intro hmem
      rcases List.mem_cons.mp hmem with h1 | h1
      · exact ha h1.symm
      · exact ih h h1

theorem eraseKeyC_not_mem {c : List (CacheKey × Img)} {e : CacheKey}
    (h : e ∉ c.map Prod.fst) : eraseKeyC c e = c := by
  induction c with
  | nil => rfl
  | cons a t ih =>
    simp only [List.map_cons, List.mem_cons, not_or] at h
    obtain ⟨h1, h2⟩ := h
    rw [eraseKeyC_cons, if_neg (fun hh => h1 hh.symm), ih h2]

theorem keys_eraseKeyC (c : List (CacheKey × Img)) (e : CacheKey)
    (h : (c.map Prod.fst).Nodup) :
    (eraseKeyC c e).map Prod.fst = (c.map Prod.fst).erase e := by
  induction c with
  | nil => rfl
  | cons a t ih =>
    rw [List.map_cons] at h
    have h1 := h.of_cons
    by_cases ha : a.1 = e
    · rw [eraseKeyC_cons, if_pos ha]
      have hnot : e ∉ t.map Prod.fst := ha ▸ (List.nodup_cons.mp h).1
      rw [eraseKeyC_not_mem hnot, List.map_cons, ha, List.erase_cons_head]
    · rw [eraseKeyC_cons, if_neg ha, List.map_cons, List.map_cons, ih h1,
        List.erase_cons_tail (by simp [ha])]

theorem lastAccessDepth_append_self (log : List CacheKey) (k : CacheKey) :
    lastAccessDepth (log ++ [k]) k = 0 := by
  unfold lastAccessDepth
  rw [List.reverse_append, List.reverse_singleton, List.singleton_append,
    List.indexOf_cons_self]

theorem lastAccessDepth_append_ne (log : List CacheKey) {a k : CacheKey} (h : a ≠ k) :
    lastAccessDepth (log ++ [k]) a = lastAccessDepth log a + 1 := by
  unfold lastAccessDepth
  rw [List.reverse_append, List.reverse_singleton, List.singleton_append]
  exact List.indexOf_cons_ne _ (Ne.symm h)

theorem pairwise_depth_append (log : List CacheKey) (l : List CacheKey) (k : CacheKey)
    (hne : ∀ a ∈ l, a ≠ k)
    (hs : l.Pairwise (fun a b => lastAccessDepth log b < lastAccessDepth log a)) :
    (l ++ [k]).Pairwise
      (fun a b => lastAccessDepth (log ++ [k]) b < lastAccessDepth (log ++ [k]) a) := by
  rw [List.pairwise_append]
  refine ⟨?_, by simp, ?_⟩
  · refine hs.imp_of_mem ?_
    intro a b ha hb hab
    rw [lastAccessDepth_append_ne log (hne a ha), lastAccessDepth_append_ne log (hne b hb)]
    omega
  · intro a ha b hb
    rw [List.mem_singleton] at hb
    subst hb
    rw [lastAccessDepth_append_self, lastAccessDepth_append_ne log (hne a ha)]
    omega

theorem evict_full_eq (s : RendererState) (hfull : s.max_cache_entries ≤ s.cache.length)
    (e : CacheKey) (rest : List CacheKey) (hor : s.cache_order = e :: rest) :
    evictIfFull s = { s with cache := eraseKeyC s.cache e, cache_order := rest } := by
  unfold evictIfFull
  rw [if_pos hfull, hor]

theorem evict_not_full_eq (s : RendererState)
    (hfull : ¬ s.max_cache_entries ≤ s.cache.length) : evictIfFull s = s := by
  unfold evictIfFull
  rw [if_neg hfull]

theorem cacheInv_insert_generic (s : RendererState) (log : List CacheKey)
    (k : CacheKey) (img : Img) (h : CacheInv s log)
    (hko : k ∉ s.cache_order) (_hkk : k ∉ s.cache.map Prod.fst) :
    CacheInv (insertEntry (evictIfFull s) k img) (log ++ [k]) := by
  by_cases hfull : s.max_cache_entries ≤ s.cache.length
  · have hlen1 : 1 ≤ s.cache.length := le_trans h.max_pos hfull
    have horder_ne : s.cache_order ≠ [] := by
      intro hh
      have hlen := h.perm.length_eq
      rw [hh, List.length_map] at hlen
      simp at hlen
      omega
    obtain ⟨e, rest, hor⟩ := List.exists_cons_of_ne_nil horder_ne
    rw [evict_full_eq s hfull e rest hor]
    have hkeys_nodup : (s.cache.map Prod.fst).Nodup := h.perm.nodup h.nodup
    have he_order : e ∈ s.cache_order := by rw [hor]; exact List.mem_cons_self _ _
    have he_keys : e ∈ s.cache.map Prod.fst := h.perm.mem_iff.mp he_order
    have hkeys2 : (eraseKeyC s.cache e).map Prod.fst = (s.cache.map Prod.fst).erase e :=
      keys_eraseKeyC s.cache e hkeys_nodup
    have hrest_nodup : rest.Nodup := by
      have hn := h.nodup; rw [hor] at hn; exact hn.of_cons
    have hk_rest : k ∉ rest := by
      intro hh
      exact hko (by rw [hor]; exact List.mem_cons_of_mem _ hh)
    have hrest_perm : rest.Perm ((s.cache.map Prod.fst).erase e) := by
      have hp := h.perm
      rw [hor] at hp
      have hp2 := hp.erase e
      rw [List.erase_cons_head] at hp2
      exact hp2
    constructor
    · show (rest ++ [k]).Nodup
      refine hrest_nodup.append (List.nodup_singleton k) ?_
      intro a ha hb
      rw [List.mem_singleton] at hb
      exact hk_rest (hb ▸ ha)
    · show (rest ++ [k]).Perm ((eraseKeyC s.cache e ++ [(k, img)]).map Prod.fst)
      rw [List.map_append, hkeys2]
      exact hrest_perm.append_right [k]
    · show (rest ++ [k]).Pairwise
        (fun a b => lastAccessDepth (log ++ [k]) b < lastAccessDepth (log ++ [k]) a)
      refine pairwise_depth_append log rest k ?_ ?_
      · intro a ha heq
        exact hk_rest (heq ▸ ha)
      · have hp := h.sorted
        rw [hor] at hp
        exact hp.of_cons
    · exact h.max_pos
    · show (eraseKeyC s.cache e ++ [(k, img)]).length ≤ s.max_cache_entries
      rw [List.length_append]
      have hlen_erase : (eraseKeyC s.cache e).length = s.cache.length - 1 := by
        have hl1 : ((eraseKeyC s.cache e).map Prod.fst).length =
            (eraseKeyC s.cache e).length := List.length_map _ _
        rw [hkeys2] at hl1
        rw [← hl1, List.length_erase_of_mem he_keys, List.length_map]
      rw [hlen_erase]
      have hle := h.len_le
      simp only [List.length_singleton]
      omega
  · rw [evict_not_full_eq s hfull]
    constructor
    · show (s.cache_order ++ [k]).Nodup
      refine h.nodup.append (List.nodup_singleton k) ?_
      intro a ha hb
      rw [List.mem_singleton] at hb
      exact hko (hb ▸ ha)
    · show (s.cache_order ++ [k]).Perm ((s.cache ++ [(k, img)]).map Prod.fst)
      rw [List.map_append]
      exact h.perm.append_right [k]
    · show (s.cache_order ++ [k]).Pairwise
        (fun a b => lastAccessDepth (log ++ [k]) b < lastAccessDepth (log ++ [k]) a)
      refine pairwise_depth_append log s.cache_order k ?_ h.sorted
      intro a ha heq
      exact hko (heq ▸ ha)
    · exact h.max_pos
    · show (s.cache ++ [(k, img)]).length ≤ s.max_cache_entries
      rw [List.length_append]
      have hlt := Nat.lt_of_not_le hfull
      simp only [List.length_singleton]
      omega

theorem cacheInv_step (env : String → Option Size) (s : RendererState)
    (log : List CacheKey) (c : LoadCall) (h : CacheInv s log) :
    CacheInv (stepR env s c) (log ++ accessLog env s c) := by
  rcases loadImage_shape env s c with ⟨pix, hl, _, hstep, hlog⟩ |
      ⟨hc, ho, hm2, hlog⟩ | ⟨hl, img, hstep, hlog⟩
  · rw [hstep, hlog]
    have hk_keys : keyOfCall c ∈ s.cache.map Prod.fst := mem_keys_of_lookupC hl
    have hk_mem : keyOfCall c ∈ s.cache_order := h.perm.mem_iff.mpr hk_keys
    have hkerase : keyOfCall c ∉ s.cache_order.erase (keyOfCall c) := by
      intro hh
      exact ((h.nodup.mem_erase_iff).mp hh).1 rfl
    constructor
    · show (s.cache_order.erase (keyOfCall c) ++ [keyOfCall c]).Nodup
      refine (h.nodup.erase _).append (List.nodup_singleton _) ?_
      intro a ha hb
      rw [List.mem_singleton] at hb
      exact hkerase (hb ▸ ha)
    · show (s.cache_order.erase (keyOfCall c) ++ [keyOfCall c]).Perm
        (s.cache.map Prod.fst)
      have h1 : s.cache_order.Perm (keyOfCall c :: s.cache_order.erase (keyOfCall c)) :=
        List.perm_cons_erase hk_mem
      have h2 : (keyOfCall c :: s.cache_order.erase (keyOfCall c)).Perm
          (s.cache_order.erase (keyOfCall c) ++ [keyOfCall c]) := by
        simpa using
          @List.perm_append_comm CacheKey [keyOfCall c] (s.cache_order.erase (keyOfCall c))
      exact (h2.symm.trans h1.symm).trans h.perm
    · show (s.cache_order.erase (keyOfCall c) ++ [keyOfCall c]).Pairwise
        (fun a b => lastAccessDepth (log ++ [keyOfCall c]) b <
          lastAccessDepth (log ++ [keyOfCall c]) a)
      refine pairwise_depth_append log _ _ ?_ (h.sorted.sublist (List.erase_sublist _ _))
      intro a ha heq
      exact ((h.nodup.mem_erase_iff).mp ha).1 heq
    · exact h.max_pos
    · exact h.len_le
  · rw [hlog, List.append_nil]
    constructor
    · rw [ho]; exact h.nodup
    · rw [ho, hc]; exact h.perm
    · rw [ho]; exact h.sorted
    · rw [hm2]; exact h.max_pos
    · rw [hc, hm2]; exact h.len_le
  · rw [hstep, hlog]
    have hkk : keyOfCall c ∉ s.cache.map Prod.fst := not_mem_keys_of_lookupC_none hl
    have hko : keyOfCall c ∉ s.cache_order := fun hh => hkk (h.perm.mem_iff.mp hh)
    exact cacheInv_insert_generic (bumpDecode s) log (keyOfCall c) img
      ⟨h.nodup, h.perm, h.sorted, h.max_pos, h.len_le⟩ hko hkk

theorem cacheInv_runLogAux (env : String → Option Size) (calls : List LoadCall) :
    ∀ (s : RendererState) (log : List CacheKey), CacheInv s log →
      CacheInv (runLogAux env calls (s, log)).1 (runLogAux env calls (s, log)).2 := by
  induction calls with
  | nil => intro s log h; exact h
  | cons c cs ih =>
    intro s log h
    exact ih (stepR env s c) (log ++ accessLog env s c) (cacheInv_step env s log c h)

theorem cacheInv_init (hw aa : Bool) (m : ℕ) (hm : 1 ≤ m) :
    CacheInv (initRenderer hw aa m) [] :=
  ⟨List.nodup_nil, List.Perm.refl [], List.Pairwise.nil, hm, Nat.zero_le m⟩

theorem evictIfFull_max (s : RendererState) :
    (evictIfFull s).max_cache_entries = s.max_cache_entries := by
  unfold evictIfFull
  split
  · split <;> rfl
  · rfl

theorem stepR_max (env : String → Option Size) (s : RendererState) (c : LoadCall) :
    (stepR env s c).max_cache_entries = s.max_cache_entries := by
  rcases loadImage_shape env s c with ⟨pix, _, _, hstep, _⟩ | ⟨_, _, hm2, _⟩ |
      ⟨_, img, hstep, _⟩
  · rw [hstep]
  · exact hm2
  · rw [hstep]
    show (evictIfFull (bumpDecode s)).max_cache_entries = _
    rw [evictIfFull_max]
    rfl

theorem runLogAux_max (env : String → Option Size) (calls : List LoadCall) :
    ∀ (s : RendererState) (log : List CacheKey),
      (runLogAux env calls (s, log)).1.max_cache_entries = s.max_cache_entries := by
  induction calls with
  | nil => intro s log; rfl
  | cons c cs ih =>
    intro s log
    rw [show runLogAux env (c :: cs) (s, log) =
      runLogAux env cs (stepR env s c, log ++ accessLog env s c) from rfl,
      ih, stepR_max]

theorem mru_last (env : String → Option Size) (s : RendererState) (c : LoadCall)
    (k : CacheKey) (hacc : accessedKey env s c = some k) :
    (stepR env s c).cache_order.getLast? = some k := by
  rcases loadImage_shape env s c with ⟨pix, _, _, hstep, hlog⟩ | ⟨_, _, _, hlog⟩ |
      ⟨_, img, hstep, hlog⟩
  · unfold accessLog at hlog
    rw [hacc] at hlog
    simp only [Option.toList_some, List.cons.injEq, and_true] at hlog
    rw [hstep, hlog, List.getLast?_concat]
  · unfold accessLog at hlog
    rw [hacc] at hlog
    simp at hlog
  · unfold accessLog at hlog
    rw [hacc] at hlog
    simp only [Option.toList_some, List.cons.injEq, and_true] at hlog
    rw [hstep, hlog]
    show ((evictIfFull (bumpDecode s)).cache_order ++ [keyOfCall c]).getLast? =
      some (keyOfCall c)
    rw [List.getLast?_concat]

theorem evicted_is_lru (env : String → Option Size) (s : RendererState)
    (log : List CacheKey) (c : LoadCall) (h : CacheInv s log) (k0 : CacheKey)
    (hmem : k0 ∈ s.cache.map Prod.fst)
    (hgone : k0 ∉ (stepR env s c).cache.map Prod.fst) :
    ∀ k2 ∈ s.cache_order, k2 ≠ k0 →
      lastAccessDepth log k2 < lastAccessDepth log k0 := by
  rcases loadImage_shape env s c with ⟨pix, _, _, hstep, _⟩ | ⟨hc, _, _, _⟩ |
      ⟨hl, img, hstep, _⟩
  · exfalso; apply hgone; rw [hstep]; exact hmem
  · exfalso; apply hgone; rw [hc]; exact hmem
  · by_cases hfull : s.max_cache_entries ≤ s.cache.length
    · have hlen1 : 1 ≤ s.cache.length := le_trans h.max_pos hfull
      have horder_ne : s.cache_order ≠ [] := by
        intro hh
        have hlen := h.perm.length_eq
        rw [hh, List.length_map] at hlen
        simp at hlen
        omega
      obtain ⟨e, rest, hor⟩ := List.exists_cons_of_ne_nil horder_ne
      have hgone2 : k0 ∉ (eraseKeyC s.cache e ++ [(keyOfCall c, img)]).map Prod.fst := by
        rw [hstep, evict_full_eq (bumpDecode s) hfull e rest hor] at hgone
        exact hgone
      rw [List.map_append] at hgone2
      have hk0 : k0 = e := by
        by_contra hne
        apply hgone2
        apply List.mem_append_left
        rw [keys_eraseKeyC s.cache e (h.perm.nodup h.nodup)]
        exact (List.mem_erase_of_ne hne).mpr hmem
      subst hk0
      intro k2 hk2 hne2
      have hp := h.sorted
      rw [hor] at hp
      have hforall := (List.pairwise_cons.mp hp).1
      have hk2r : k2 ∈ rest := by
        rw [hor] at hk2
        rcases List.mem_cons.mp hk2 with hh | hh
        · exact absurd hh hne2
        · exact hh
      exact hforall k2 hk2r
    · exfalso
      apply hgone
      rw [hstep, evict_not_full_eq (bumpDecode s) hfull]
      show k0 ∈ (s.cache ++ [(keyOfCall c, img)]).map Prod.fst
      rw [List.map_append]
      exact List.mem_append_left _ hmem

/-- C1: starting from a fresh CachedImageRenderer with capacity at least
1, along every sequence of load_image calls (1) the number of cached
entries never exceeds max_cache_entries; (2) any key a further call
evicts from the cache is the least-recently-accessed cached key (every
other cached key sits strictly deeper toward the recent end of the
access log); and (3) whenever a call accesses a key (a hit on a present
key or a fresh insertion) that key becomes the last element of
cache_order, so the most-recently-used key is always last. -/
theorem c1_lru_cache_invariants (env : String → Option Size) (hw aa : Bool) (m : ℕ)
    (calls : List LoadCall) (c : LoadCall) (hm : 1 ≤ m) :
    (runWithLog env calls (initRenderer hw aa m)).1.cache.length ≤ m ∧
    (∀ k0, k0 ∈ (runWithLog env calls (initRenderer hw aa m)).1.cache.map Prod.fst →
      k0 ∉ (stepR env (runWithLog env calls (initRenderer hw aa m)).1 c).cache.map
        Prod.fst →
      ∀ k2 ∈ (runWithLog env calls (initRenderer hw aa m)).1.cache_order, k2 ≠ k0 →
        lastAccessDepth (runWithLog env calls (initRenderer hw aa m)).2 k2 <
          lastAccessDepth (runWithLog env calls (initRenderer hw aa m)).2 k0) ∧
    (∀ k, accessedKey env (runWithLog env calls (initRenderer hw aa m)).1 c = some k →
      (stepR env (runWithLog env calls (initRenderer hw aa m)).1 c).cache_order.getLast? =
        some k) := by
  have hinv : CacheInv (runWithLog env calls (initRenderer hw aa m)).1
      (runWithLog env calls (initRenderer hw aa m)).2 :=
    cacheInv_runLogAux env calls (initRenderer hw aa m) [] (cacheInv_init hw aa m hm)
  refine ⟨?_, ?_, ?_⟩
  · have h1 := hinv.len_le
    have h2 : (runWithLog env calls (initRenderer hw aa m)).1.max_cache_entries = m :=
      runLogAux_max env calls (initRenderer hw aa m) []
    rw [h2] at h1
    exact h1
  · intro k0 hmem hgone
    exact evicted_is_lru env _ _ c hinv k0 hmem hgone
  · intro k hacc
    exact mru_last env _ c k hacc

/-- Witness for C1 at a concrete capacity-1 renderer. -/
theorem c1_lru_cache_invariants_witness :
    (1 : ℕ) ≤ 1 ∧ (runWithLog envOk [] (initRenderer true true 1)).1.cache.length ≤ 1 :=
  ⟨le_refl 1, (c1_lru_cache_invariants envOk true true 1 [] sampleCall (le_refl 1)).1⟩
